import Mathlib

/-!
Shallow embedding of `csvtogpx.py` (Foot2Fog): a batch converter from two
vendor CSV schemas to GPX tracks, with per-second linear interpolation and
segment splitting on large time gaps.

Modelling conventions:
* A CSV cell (after `pandas.read_csv`) is a numeric value, a non-numeric
  text, or missing (float NaN).  Numeric values are modelled by `ℚ`;
  a float NaN stored in a numeric field is modelled by `none` in `Option ℚ`.
  Only the timestamp column is ever coerced with `errors='coerce'`;
  non-numeric text in the lat/lon/ele cells is not NaN: it survives
  `dropna` and raises once used (f-string formatting or interpolation
  arithmetic), aborting the file, which the model renders as `none`.
* A pandas DataFrame is a list of column names plus rows of cells.
* `process_and_generate_gpx` builds the XML tree `trk`/`trkseg`/`trkpt`;
  we model the track as a list of segments, each a list of track points.
  The Python code accesses `df.iloc[-1]` which raises `IndexError` on an
  empty frame; the model returns `none` on that path (`Option` result).
* `datetime` timestamps are kept as rational epoch seconds;
  `timedelta(seconds=k)` is addition of `k`.  The `strftime` rendering of
  times is not modelled (no claim depends on it); the `f"{ele:.2f}"`
  rendering of elevations is modelled including its `"nan"` output on NaN.
-/

namespace Foot2Fog

/-- A CSV cell as seen after `pandas.read_csv`: a numeric value, a
non-numeric text value, or a missing value (NaN). -/
inductive Cell where
  | num (q : ℚ)
  | str (s : String)
  | na
deriving DecidableEq, Repr

/-- A pandas DataFrame: named columns and rows of cells (row cells are
addressed positionally through the column list). -/
structure DataFrame where
  columns : List String
  rows : List (List Cell)
deriving DecidableEq, Repr

/-- Constant `MAX_GAP_SECONDS = 300` (source line 10). -/
def MAX_GAP_SECONDS : ℚ := 300

/-- Constant `INTERPOLATION_STEP = 1` (source line 11). -/
def INTERPOLATION_STEP : ℚ := 1

/-- Behaviour of `pd.to_numeric(x, errors='coerce')` on a single cell:
numeric values pass through, non-numeric text and missing values coerce
to NaN. -/
def toNumericCell : Cell → Cell
  | .num q => .num q
  | _ => .na

/-- Position of a column name in the column list (first occurrence). -/
def colIdx (cols : List String) (name : String) : Option Nat :=
  cols.findIdx? (fun c => c == name)

/-- Assignment `df[name] = pd.to_numeric(df[name], errors='coerce')`:
the named column of every row is coerced to numeric. -/
def toNumericColumn (df : DataFrame) (name : String) : DataFrame :=
  match colIdx df.columns name with
  | none => df
  | some j => { df with rows := df.rows.map (fun row => row.set j (toNumericCell (row.getD j .na))) }

/-- Column renaming for format A (Variflight), source lines 33-38. -/
def renameVariflight (c : String) : String :=
  if c = "Time" then "timestamp"
  else if c = "Latitude" then "lat"
  else if c = "Longitude" then "lon"
  else if c = "Height" then "ele"
  else c

/-- Column renaming for format B (Footprint), source lines 46-51. -/
def renameFootprint (c : String) : String :=
  if c = "dataTime" then "timestamp"
  else if c = "latitude" then "lat"
  else if c = "longitude" then "lon"
  else if c = "altitude" then "ele"
  else c

/-- Function `standardize_dataframe` (source lines 22-58): strip the column names,
detect the schema (format A checked first), rename the columns, coerce the
timestamp column to numeric; `none` models the `(None, None)` return. -/
def standardize_dataframe (df0 : DataFrame) : Option (DataFrame × String) :=
  let df : DataFrame := { df0 with columns := df0.columns.map String.trim }
  let cols := df.columns
  if "Time" ∈ cols ∧ "Latitude" ∈ cols ∧ "Longitude" ∈ cols then
    some (toNumericColumn { df with columns := df.columns.map renameVariflight } "timestamp",
      "Variflight")
  else if "dataTime" ∈ cols ∧ "latitude" ∈ cols ∧ "longitude" ∈ cols then
    some (toNumericColumn { df with columns := df.columns.map renameFootprint } "timestamp",
      "Footprint")
  else
    none

/-- A canonical record: one row of the standardized frame viewed through
the columns `timestamp`, `lat`, `lon`, `ele`; `none` is a NaN field. -/
structure CanonicalRecord where
  timestamp : Option ℚ
  lat : Option ℚ
  lon : Option ℚ
  ele : Option ℚ
deriving DecidableEq, Repr

/-- The cell of an optionally-located column in a row; an absent column
reads as a missing value (the sole absent-column default, elevation 0,
is handled by the caller). -/
def cellAt (row : List Cell) : Option Nat → Cell
  | none => .na
  | some j => row.getD j .na

/-- Numeric view of a cell that is not text: a number, or `none` for a
float NaN.  A text cell never reaches this view on the success path:
`process_and_generate_gpx` takes its error result first, because the
source raises on text in `_write_pt` or the interpolation arithmetic. -/
def cellToOpt : Cell → Option ℚ
  | .num q => some q
  | _ => none

/-- Whether a cell is a float NaN.  Non-numeric text is not NaN:
`dropna` keeps such a row. -/
def cellIsNaN : Cell → Bool
  | .na => true
  | _ => false

/-- Whether a cell holds non-numeric text: formatting such a value with
an f-string or using it in arithmetic raises in the source. -/
def cellIsText : Cell → Bool
  | .str _ => true
  | _ => false

/-- One row of the frame as a canonical record.  When the `ele` column is
absent the whole-file default `df['ele'] = 0` applies (source lines 61-62). -/
def extractRow (cols : List String) (row : List Cell) : CanonicalRecord :=
  { timestamp := cellToOpt (cellAt row (colIdx cols "timestamp"))
    lat := cellToOpt (cellAt row (colIdx cols "lat"))
    lon := cellToOpt (cellAt row (colIdx cols "lon"))
    ele :=
      match colIdx cols "ele" with
      | none => some 0
      | some j => cellToOpt (row.getD j .na) }

/-- The standardized frame as a sequence of canonical records. -/
def toCanonical (df : DataFrame) : List CanonicalRecord :=
  df.rows.map (extractRow df.columns)

/-- A record that survives `dropna(subset=['lat','lon','timestamp'])`:
timestamp, lat and lon are non-NaN (`ele` may still be NaN). -/
structure ValidRecord where
  time : ℚ
  lat : ℚ
  lon : ℚ
  ele : Option ℚ
deriving DecidableEq, Repr

/-- The valid view of a record, `none` when `dropna` removes the row. -/
def toValid (r : CanonicalRecord) : Option ValidRecord :=
  match r.timestamp, r.lat, r.lon with
  | some t, some la, some lo => some ⟨t, la, lo, r.ele⟩
  | _, _, _ => none

/-- Filtering `df.dropna(subset=['lat','lon','timestamp'])` (source line 66). -/
def validRecords (l : List CanonicalRecord) : List ValidRecord :=
  l.filterMap toValid

/-- Sort key of a row for `sort_values(by='dt_object')`: NaN timestamps
become `NaT`, which pandas places last (`⊤`). -/
def timeKey (r : CanonicalRecord) : WithTop ℚ :=
  match r.timestamp with
  | some t => (t : WithTop ℚ)
  | none => ⊤

/-- Row comparison used by the sort on `dt_object` (source line 65). -/
def recLE (a b : CanonicalRecord) : Prop := timeKey a ≤ timeKey b

instance : DecidableRel recLE :=
  fun a b => inferInstanceAs (Decidable (timeKey a ≤ timeKey b))

instance : IsTotal CanonicalRecord recLE := ⟨fun a b => le_total (timeKey a) (timeKey b)⟩

instance : IsTrans CanonicalRecord recLE := ⟨fun _ _ _ h1 h2 => le_trans h1 h2⟩

/-- Comparison of valid records by time. -/
def vrLE (a b : ValidRecord) : Prop := a.time ≤ b.time

instance : DecidableRel vrLE :=
  fun a b => inferInstanceAs (Decidable (a.time ≤ b.time))

instance : IsTotal ValidRecord vrLE := ⟨fun a b => le_total a.time b.time⟩

instance : IsTrans ValidRecord vrLE := ⟨fun _ _ _ h1 h2 => le_trans h1 h2⟩

/-- The record sequence the pair loop iterates over: sorted by `dt_object`
(line 65), then `dropna` (line 66). -/
def sortedValid (l : List CanonicalRecord) : List ValidRecord :=
  validRecords (List.insertionSort recLE l)

/-- A `trkpt` element: `lat`/`lon` attributes, `ele` child (NaN possible),
and the point's time in epoch seconds. -/
structure TrackPoint where
  lat : ℚ
  lon : ℚ
  ele : Option ℚ
  time : ℚ
deriving DecidableEq, Repr

/-- The point written for a record by `_write_pt(trkseg, lat, lon, ele, t)`. -/
def pointOf (r : ValidRecord) : TrackPoint := ⟨r.lat, r.lon, r.ele, r.time⟩

/-- Float expression `ele1 + (ele2 - ele1) * fraction`: NaN in either
operand propagates to NaN (also at fraction 0). -/
def eleInterp (e1 e2 : Option ℚ) (f : ℚ) : Option ℚ :=
  match e1, e2 with
  | some a, some b => some (a + (b - a) * f)
  | _, _ => none

/-- The interpolated point of index `step` out of `steps`
(source lines 96-103): positions at fraction `step/steps`, time advanced
by `step` whole seconds from `curr`. -/
def interpPoint (curr next : ValidRecord) (steps step : ℕ) : TrackPoint :=
  let fraction : ℚ := (step : ℚ) / (steps : ℚ)
  { lat := curr.lat + (next.lat - curr.lat) * fraction
    lon := curr.lon + (next.lon - curr.lon) * fraction
    ele := eleInterp curr.ele next.ele fraction
    time := curr.time + (step : ℚ) }

/-- The interpolated points emitted for one pair (source lines 95-104). -/
def interpPoints (curr next : ValidRecord) (steps : ℕ) : List TrackPoint :=
  (List.range steps).map (interpPoint curr next steps)

/-- The pair loop of `process_and_generate_gpx` (source lines 75-107).
State: current record, remaining records, closed segments, current open
segment, `count_generated`.  After the loop the final record's point is
written into the current segment (lines 106-107). -/
def buildAux (curr : ValidRecord) (rest : List ValidRecord)
    (closed : List (List TrackPoint)) (seg : List TrackPoint) (count : ℕ) :
    List (List TrackPoint) × ℕ :=
  match rest with
  | [] => (closed ++ [seg ++ [pointOf curr]], count)
  | next :: rest' =>
    let g := next.time - curr.time
    if MAX_GAP_SECONDS < g then
      buildAux next rest' (closed ++ [seg ++ [pointOf curr]]) [] count
    else if g ≤ INTERPOLATION_STEP then
      buildAux next rest' closed (seg ++ [pointOf curr]) (count + 1)
    else
      buildAux next rest' closed (seg ++ interpPoints curr next (⌊g / INTERPOLATION_STEP⌋).toNat)
        (count + (⌊g / INTERPOLATION_STEP⌋).toNat)

/-- The track build on the sorted valid records.  `none` models the
`IndexError` raised by `df.iloc[-1]` when no record is left. -/
def buildTrack : List ValidRecord → Option (List (List TrackPoint) × ℕ)
  | [] => none
  | r :: rest => some (buildAux r rest [] [] 0)

/-- Core of `process_and_generate_gpx` on an already-extracted record sequence:
sort by time (NaN last), drop NaN rows, run the pair loop, write the
final point; returns the segments of the single `trk` and
`count_generated`. -/
def processRecords (l : List CanonicalRecord) : Option (List (List TrackPoint) × ℕ) :=
  buildTrack (sortedValid l)

/-- Whether `dropna(subset=['lat','lon','timestamp'])` keeps the row:
none of the three cells is NaN (source line 66). -/
def rowKept (cols : List String) (row : List Cell) : Bool :=
  !cellIsNaN (cellAt row (colIdx cols "timestamp"))
    && !cellIsNaN (cellAt row (colIdx cols "lat"))
    && !cellIsNaN (cellAt row (colIdx cols "lon"))

/-- Whether emitting this row would raise.  Every row kept by `dropna`
eventually has its lat, lon and ele either formatted by `_write_pt`
(source lines 112-115, as `curr` in the gap/small-gap branches or as the
final record) or used in the interpolation arithmetic (lines 98-100), so
non-numeric text in any of them aborts the conversion with a
ValueError/TypeError.  With the ele column absent the constant 0 default
applies and cannot be text. -/
def rowRaises (cols : List String) (row : List Cell) : Bool :=
  cellIsText (cellAt row (colIdx cols "lat"))
    || cellIsText (cellAt row (colIdx cols "lon"))
    || (match colIdx cols "ele" with
        | none => false
        | some j => cellIsText (row.getD j .na))

/-- Function `process_and_generate_gpx` (source lines 60-110) on a
standardized frame.  The two error paths return `none`: non-numeric text
anywhere in the timestamp column makes `pd.to_datetime` raise at line
64, and non-numeric text in the lat/lon/ele cells of any row that
survives `dropna` raises once that row is emitted or interpolated;
either way the exception is caught in `main` and no output is written. -/
def process_and_generate_gpx (df : DataFrame) : Option (List (List TrackPoint) × ℕ) :=
  if df.rows.any (fun row => cellIsText (cellAt row (colIdx df.columns "timestamp"))) then
    none
  else if df.rows.any (fun row => rowKept df.columns row && rowRaises df.columns row) then
    none
  else
    processRecords (toCanonical df)

/-- One iteration of `main`'s per-file loop (source lines 129-149):
standardize, then convert; `none` when the file is skipped (unrecognized
schema) or the conversion raises (caught by the `except`). -/
def convertFile (df : DataFrame) : Option (List (List TrackPoint) × ℕ) :=
  match standardize_dataframe df with
  | none => none
  | some (sdf, _fmt) => process_and_generate_gpx sdf

/-- Batch of `main` over the discovered files: each file is processed
independently; a failure or skip of one file never affects the others. -/
def runBatch (files : List DataFrame) : List (Option (List (List TrackPoint) × ℕ)) :=
  files.map convertFile

/-- Round to the nearest integer, ties to even (CPython's float
formatting rounding). -/
def roundHalfEven (q : ℚ) : ℤ :=
  if Int.fract q < 1/2 then ⌊q⌋
  else if (1 : ℚ)/2 < Int.fract q then ⌊q⌋ + 1
  else if ⌊q⌋ % 2 = 0 then ⌊q⌋ else ⌊q⌋ + 1

/-- Format `f"{x:.2f}"` for a non-NaN value: fixed two-decimal rendering. -/
def fixed2 (q : ℚ) : String :=
  let n := roundHalfEven (q * 100)
  let sign := if n < 0 then "-" else ""
  let m := n.natAbs
  sign ++ toString (m / 100) ++ "." ++ (if m % 100 < 10 then "0" else "") ++ toString (m % 100)

/-- The text of the `ele` element written by `_write_pt` (source line
114): `f"{ele:.2f}"`, which renders a float NaN as `"nan"`. -/
def eleString : Option ℚ → String
  | some q => fixed2 q
  | none => "nan"

/-- Spec-side ordering of the track-builder preprocessing, modelled from
the spec (section 4.2, steps 1-2): drop every record whose timestamp, lat
or lon is NaN first, then sort the remaining records ascending by
instant.  The code performs the two steps in the other order. -/
def specOrderValid (l : List CanonicalRecord) : List ValidRecord :=
  List.insertionSort vrLE (validRecords l)

/-- Track building preceded by the spec-side ordering of steps. -/
def specProcessRecords (l : List CanonicalRecord) : Option (List (List TrackPoint) × ℕ) :=
  buildTrack (specOrderValid l)

/-- All points emitted by the pair loop from state `(curr, rest)` onward,
read in emission order with segment boundaries flattened away. -/
def emitted (curr : ValidRecord) (rest : List ValidRecord) : List TrackPoint :=
  ((buildAux curr rest [] [] 0).1).flatten


/-- Sample input for concrete checks: two records 400 seconds apart. -/
def wl2 : List CanonicalRecord :=
  [⟨some 0, some 0, some 0, some 0⟩, ⟨some 400, some 1, some 1, some 0⟩]

/-- Sample input for concrete checks: two records given out of order with
distinct timestamps. -/
def wl9 : List CanonicalRecord :=
  [⟨some 5, some 1, some 1, some 0⟩, ⟨some 2, some 2, some 2, some 0⟩]

/-- Sample frame with no columns at all: matches neither schema. -/
def dfu : DataFrame := ⟨[], []⟩

/-- Sample standardized frame with an elevation column whose only row
has a NaN elevation cell. -/
def df10 : DataFrame :=
  ⟨["timestamp", "lat", "lon", "ele"], [[.num 10, .num 1, .num 2, .na]]⟩


/-! ### Unfolding lemmas for the pair loop -/

theorem buildAux_last (curr : ValidRecord) (closed : List (List TrackPoint))
    (seg : List TrackPoint) (count : ℕ) :
    buildAux curr [] closed seg count = (closed ++ [seg ++ [pointOf curr]], count) := rfl

theorem buildAux_gap (curr next : ValidRecord) (rest : List ValidRecord)
    (closed : List (List TrackPoint)) (seg : List TrackPoint) (count : ℕ)
    (h : MAX_GAP_SECONDS < next.time - curr.time) :
    buildAux curr (next :: rest) closed seg count
      = buildAux next rest (closed ++ [seg ++ [pointOf curr]]) [] count := by
  simp only [buildAux]
  rw [if_pos h]

theorem buildAux_small (curr next : ValidRecord) (rest : List ValidRecord)
    (closed : List (List TrackPoint)) (seg : List TrackPoint) (count : ℕ)
    (h1 : ¬ MAX_GAP_SECONDS < next.time - curr.time)
    (h2 : next.time - curr.time ≤ INTERPOLATION_STEP) :
    buildAux curr (next :: rest) closed seg count
      = buildAux next rest closed (seg ++ [pointOf curr]) (count + 1) := by
  simp only [buildAux]
  rw [if_neg h1, if_pos h2]

theorem buildAux_steps (curr next : ValidRecord) (rest : List ValidRecord)
    (closed : List (List TrackPoint)) (seg : List TrackPoint) (count : ℕ)
    (h1 : ¬ MAX_GAP_SECONDS < next.time - curr.time)
    (h2 : ¬ next.time - curr.time ≤ INTERPOLATION_STEP) :
    buildAux curr (next :: rest) closed seg count
      = buildAux next rest closed
          (seg ++ interpPoints curr next (⌊(next.time - curr.time) / INTERPOLATION_STEP⌋).toNat)
          (count + (⌊(next.time - curr.time) / INTERPOLATION_STEP⌋).toNat) := by
  simp only [buildAux]
  rw [if_neg h1, if_neg h2]

theorem one_le_floor_steps {g : ℚ} (h : INTERPOLATION_STEP < g) :
    1 ≤ ⌊g / INTERPOLATION_STEP⌋ := by
  rw [Int.le_floor]
  simp only [INTERPOLATION_STEP] at h ⊢
  rw [div_one]
  push_cast
  linarith

theorem steps_pos {g : ℚ} (h : INTERPOLATION_STEP < g) :
    0 < (⌊g / INTERPOLATION_STEP⌋).toNat := by
  have h1 := one_le_floor_steps h
  omega

theorem steps_le {g : ℚ} (h : INTERPOLATION_STEP < g) :
    ((⌊g / INTERPOLATION_STEP⌋).toNat : ℚ) ≤ g := by
  have h1 := one_le_floor_steps h
  have h3 : ((⌊g / INTERPOLATION_STEP⌋ : ℤ) : ℚ) ≤ g / INTERPOLATION_STEP := Int.floor_le _
  have h4 : g / INTERPOLATION_STEP = g := by
    simp [INTERPOLATION_STEP]
  have h2 : ((⌊g / INTERPOLATION_STEP⌋).toNat : ℤ) = ⌊g / INTERPOLATION_STEP⌋ :=
    Int.toNat_of_nonneg (by omega)
  calc ((⌊g / INTERPOLATION_STEP⌋).toNat : ℚ) = ((⌊g / INTERPOLATION_STEP⌋ : ℤ) : ℚ) := by
        exact_mod_cast h2
    _ ≤ g / INTERPOLATION_STEP := h3
    _ = g := h4

/-! ### Claim theorems: interpolation, empty input, detection, counting, skipping -/

/-- C1: for a consecutive sorted pair whose gap g in seconds satisfies
INTERPOLATION_STEP < g ≤ MAX_GAP_SECONDS, the loop iteration emits exactly
⌊g / INTERPOLATION_STEP⌋ interpolated points into the current segment and
then continues with the next record; the point of index step carries
lat, lon and ele linearly interpolated at fraction step/steps between the
two records, and its timestamp is curr.time + step whole seconds (not
proportional to the true gap). -/
theorem C1_interpolated_batch (curr next : ValidRecord) (rest : List ValidRecord)
    (closed : List (List TrackPoint)) (seg : List TrackPoint) (count : ℕ)
    (h1 : INTERPOLATION_STEP < next.time - curr.time)
    (h2 : next.time - curr.time ≤ MAX_GAP_SECONDS) :
    ∃ pts : List TrackPoint,
      buildAux curr (next :: rest) closed seg count
        = buildAux next rest closed (seg ++ pts) (count + pts.length) ∧
      pts.length = (⌊(next.time - curr.time) / INTERPOLATION_STEP⌋).toNat ∧
      ∀ k, (hk : k < pts.length) → pts.get ⟨k, hk⟩ =
        { lat := curr.lat + (next.lat - curr.lat) * ((k : ℚ) / (pts.length : ℚ))
          lon := curr.lon + (next.lon - curr.lon) * ((k : ℚ) / (pts.length : ℚ))
          ele := eleInterp curr.ele next.ele ((k : ℚ) / (pts.length : ℚ))
          time := curr.time + (k : ℚ) } := by
  refine ⟨interpPoints curr next (⌊(next.time - curr.time) / INTERPOLATION_STEP⌋).toNat,
    ?_, ?_, ?_⟩
  · rw [buildAux_steps curr next rest closed seg count (not_lt.mpr h2) (not_le.mpr h1)]
    simp [interpPoints]
  · simp [interpPoints]
  · intro k hk
    simp only [interpPoints, List.length_map, List.length_range] at hk ⊢
    simp [List.get_eq_getElem, List.getElem_map, List.getElem_range, interpPoint]

/-- C4: an input record sequence that is empty after filtering reaches
the final-record access `df.iloc[-1]` with no rows left; the code raises
IndexError there (modelled by the `none` result) instead of completing
normally with an empty Track and zero points as the spec requires. -/
theorem C4_empty_input_raises :
    processRecords [] = none ∧
    processRecords [{ timestamp := none, lat := some 1, lon := some 2, ele := some 0 }]
      = none :=
  ⟨rfl, rfl⟩

/-- C5: schema detection first trims surrounding whitespace from the
column names, then labels the file Variflight exactly when Time, Latitude
and Longitude are all present (whatever other columns are present — the
first match wins), otherwise Footprint exactly when dataTime, latitude
and longitude are all present, and otherwise returns the
not-recognized signal. -/
theorem C5_schema_detection (df : DataFrame) :
    ((standardize_dataframe df).map Prod.snd = some "Variflight" ↔
      ("Time" ∈ df.columns.map String.trim ∧ "Latitude" ∈ df.columns.map String.trim ∧
        "Longitude" ∈ df.columns.map String.trim)) ∧
    ((standardize_dataframe df).map Prod.snd = some "Footprint" ↔
      (¬("Time" ∈ df.columns.map String.trim ∧ "Latitude" ∈ df.columns.map String.trim ∧
          "Longitude" ∈ df.columns.map String.trim) ∧
        ("dataTime" ∈ df.columns.map String.trim ∧ "latitude" ∈ df.columns.map String.trim ∧
          "longitude" ∈ df.columns.map String.trim))) ∧
    (standardize_dataframe df = none ↔
      (¬("Time" ∈ df.columns.map String.trim ∧ "Latitude" ∈ df.columns.map String.trim ∧
          "Longitude" ∈ df.columns.map String.trim) ∧
        ¬("dataTime" ∈ df.columns.map String.trim ∧ "latitude" ∈ df.columns.map String.trim ∧
          "longitude" ∈ df.columns.map String.trim))) := by
  by_cases hA : ("Time" ∈ df.columns.map String.trim ∧ "Latitude" ∈ df.columns.map String.trim ∧
      "Longitude" ∈ df.columns.map String.trim)
  · simp only [standardize_dataframe]
    rw [if_pos hA]
    exact ⟨iff_of_true (by simp) hA, iff_of_false (by simp) (fun h => h.1 hA),
      iff_of_false (by simp) (fun h => h.1 hA)⟩
  · by_cases hB : ("dataTime" ∈ df.columns.map String.trim ∧
        "latitude" ∈ df.columns.map String.trim ∧ "longitude" ∈ df.columns.map String.trim)
    · simp only [standardize_dataframe]
      rw [if_neg hA, if_pos hB]
      exact ⟨iff_of_false (by simp) hA, iff_of_true (by simp) ⟨hA, hB⟩,
        iff_of_false (by simp) (fun h => h.2 hB)⟩
    · simp only [standardize_dataframe]
      rw [if_neg hA, if_neg hB]
      exact ⟨iff_of_false (by simp) hA, iff_of_false (by simp) (fun h => hB h.2),
        iff_of_true rfl ⟨hA, hB⟩⟩

theorem buildAux_count_inv (rest : List ValidRecord) :
    ∀ curr closed seg count,
      ((buildAux curr rest closed seg count).1.map List.length).sum + count + closed.length
        = ((closed.map List.length).sum + seg.length) + (buildAux curr rest closed seg count).2
            + (buildAux curr rest closed seg count).1.length := by
  induction rest with
  | nil =>
    intro curr closed seg count
    simp only [buildAux, List.map_append, List.sum_append, List.length_append, List.map_cons,
      List.sum_cons, List.map_nil, List.sum_nil, List.length_cons, List.length_nil]
    omega
  | cons next rest' ih =>
    intro curr closed seg count
    by_cases h1 : MAX_GAP_SECONDS < next.time - curr.time
    · rw [buildAux_gap curr next rest' closed seg count h1]
      have h := ih next (closed ++ [seg ++ [pointOf curr]]) [] count
      simp only [List.map_append, List.sum_append, List.length_append, List.map_cons,
        List.sum_cons, List.map_nil, List.sum_nil, List.length_cons, List.length_nil] at h ⊢
      omega
    · by_cases h2 : next.time - curr.time ≤ INTERPOLATION_STEP
      · rw [buildAux_small curr next rest' closed seg count h1 h2]
        have h := ih next closed (seg ++ [pointOf curr]) (count + 1)
        simp only [List.length_append, List.length_cons, List.length_nil] at h ⊢
        omega
      · rw [buildAux_steps curr next rest' closed seg count h1 h2]
        have h := ih next closed
          (seg ++ interpPoints curr next (⌊(next.time - curr.time) / INTERPOLATION_STEP⌋).toNat)
          (count + (⌊(next.time - curr.time) / INTERPOLATION_STEP⌋).toNat)
        have hlen : (interpPoints curr next
            (⌊(next.time - curr.time) / INTERPOLATION_STEP⌋).toNat).length
            = (⌊(next.time - curr.time) / INTERPOLATION_STEP⌋).toNat := by
          simp [interpPoints]
        simp only [List.length_append, hlen] at h ⊢
        omega

/-- C6: on an input with at least one valid record, count_generated counts
exactly the small-gap and interpolation emissions, excluding the one point
emitted at each gap-split boundary and the final trailing point; since
each gap split also opens one new segment, the total number of emitted
points equals the returned count plus the number of segments (that is,
count = total − (segments − 1) − 1). -/
theorem C6_count_accounting (l : List CanonicalRecord)
    (segs : List (List TrackPoint)) (n : ℕ)
    (h : processRecords l = some (segs, n)) :
    (segs.map List.length).sum = n + segs.length := by
  cases hsv : sortedValid l with
  | nil =>
    have hpr : processRecords l = none := by
      have : processRecords l = buildTrack (sortedValid l) := rfl
      rw [this, hsv]
      rfl
    rw [hpr] at h
    cases h
  | cons r rest =>
    have h' : buildAux r rest [] [] 0 = (segs, n) := by
      have heq : processRecords l = buildTrack (sortedValid l) := rfl
      rw [heq, hsv] at h
      simpa [buildTrack] using h
    have h0 := buildAux_count_inv rest r [] [] 0
    rw [h'] at h0
    simpa using h0

/-- C7: a file whose trimmed columns match neither known format is not
converted: standardize_dataframe returns the not-recognized signal rather
than raising, no output is produced for that file, and every other file
of the batch is processed exactly as it would have been. -/
theorem C7_unrecognized_skip (fs1 fs2 : List DataFrame) (df : DataFrame)
    (hA : ¬("Time" ∈ df.columns.map String.trim ∧ "Latitude" ∈ df.columns.map String.trim ∧
      "Longitude" ∈ df.columns.map String.trim))
    (hB : ¬("dataTime" ∈ df.columns.map String.trim ∧ "latitude" ∈ df.columns.map String.trim ∧
      "longitude" ∈ df.columns.map String.trim)) :
    standardize_dataframe df = none ∧
    runBatch (fs1 ++ df :: fs2) = runBatch fs1 ++ none :: runBatch fs2 := by
  have hstd : standardize_dataframe df = none := by
    simp only [standardize_dataframe]
    rw [if_neg hA, if_neg hB]
  refine ⟨hstd, ?_⟩
  simp [runBatch, convertFile, hstd]


/-! ### Sorting commutes with the NaN filter -/

theorem toValid_none_of_timestamp_none {r : CanonicalRecord} (h : r.timestamp = none) :
    toValid r = none := by
  obtain ⟨t, la, lo, e⟩ := r
  cases h
  cases la <;> cases lo <;> rfl

theorem timeKey_of_toValid {r : CanonicalRecord} {v : ValidRecord} (h : toValid r = some v) :
    timeKey r = (v.time : WithTop ℚ) := by
  obtain ⟨t, la, lo, e⟩ := r
  cases t with
  | none => simp [toValid] at h
  | some t0 =>
    cases la with
    | none => simp [toValid] at h
    | some la0 =>
      cases lo with
      | none => simp [toValid] at h
      | some lo0 =>
        simp only [toValid, Option.some.injEq] at h
        subst h
        rfl

theorem recLE_of_valid {a b : CanonicalRecord} {va vb : ValidRecord}
    (ha : toValid a = some va) (hb : toValid b = some vb) :
    recLE a b ↔ va.time ≤ vb.time := by
  unfold recLE
  rw [timeKey_of_toValid ha, timeKey_of_toValid hb]
  exact WithTop.coe_le_coe

theorem orderedInsert_eq_cons {v : ValidRecord} {vs : List ValidRecord}
    (h : ∀ y ∈ vs, v.time ≤ y.time) :
    List.orderedInsert vrLE v vs = v :: vs := by
  cases vs with
  | nil => rfl
  | cons y ys =>
    have hy : vrLE v y := h y (List.mem_cons_self y ys)
    simp [List.orderedInsert, hy]

theorem validRecords_orderedInsert_none (x : CanonicalRecord) (hx : toValid x = none) :
    ∀ s : List CanonicalRecord,
      validRecords (List.orderedInsert recLE x s) = validRecords s := by
  intro s
  induction s with
  | nil => simp [validRecords, hx]
  | cons b s' ih =>
    by_cases hle : recLE x b
    · rw [List.orderedInsert_of_le recLE s' hle]
      simp [validRecords, List.filterMap_cons, hx]
    · have hstep : List.orderedInsert recLE x (b :: s') = b :: List.orderedInsert recLE x s' := by
        simp [List.orderedInsert, hle]
      rw [hstep]
      simp only [validRecords, List.filterMap_cons] at ih ⊢
      cases toValid b <;> simp [ih]

theorem validRecords_orderedInsert_some (x : CanonicalRecord) (v : ValidRecord)
    (hx : toValid x = some v) :
    ∀ s : List CanonicalRecord, s.Sorted recLE →
      validRecords (List.orderedInsert recLE x s)
        = List.orderedInsert vrLE v (validRecords s) := by
  intro s
  induction s with
  | nil =>
    intro _
    simp [validRecords, hx]
  | cons b s' ih =>
    intro hs
    have hs' : s'.Sorted recLE := (List.sorted_cons.mp hs).2
    have hhead : ∀ c ∈ s', recLE b c := (List.sorted_cons.mp hs).1
    by_cases hle : recLE x b
    · rw [List.orderedInsert_of_le recLE s' hle]
      have hL : validRecords (x :: b :: s') = v :: validRecords (b :: s') := by
        simp [validRecords, List.filterMap_cons, hx]
      rw [hL]
      have hall : ∀ y ∈ validRecords (b :: s'), v.time ≤ y.time := by
        intro y hy
        simp only [validRecords] at hy
        obtain ⟨c, hc, hcy⟩ := List.mem_filterMap.mp hy
        have hxc : recLE x c := by
          rcases List.mem_cons.mp hc with hcb | hcs
          · exact hcb ▸ hle
          · exact le_trans hle (hhead c hcs)
        exact (recLE_of_valid hx hcy).mp hxc
      rw [orderedInsert_eq_cons hall]
    · have hstep : List.orderedInsert recLE x (b :: s') = b :: List.orderedInsert recLE x s' := by
        simp [List.orderedInsert, hle]
      rw [hstep]
      cases hb : toValid b with
      | none =>
        have hL : validRecords (b :: List.orderedInsert recLE x s')
            = validRecords (List.orderedInsert recLE x s') := by
          simp [validRecords, List.filterMap_cons, hb]
        have hR : validRecords (b :: s') = validRecords s' := by
          simp [validRecords, List.filterMap_cons, hb]
        rw [hL, hR, ih hs']
      | some b' =>
        have hL : validRecords (b :: List.orderedInsert recLE x s')
            = b' :: validRecords (List.orderedInsert recLE x s') := by
          simp [validRecords, List.filterMap_cons, hb]
        have hR : validRecords (b :: s') = b' :: validRecords s' := by
          simp [validRecords, List.filterMap_cons, hb]
        rw [hL, hR, ih hs']
        have hnot : ¬ vrLE v b' := by
          intro hcontra
          exact hle ((recLE_of_valid hx hb).mpr hcontra)
        simp [List.orderedInsert, hnot]

theorem validRecords_insertionSort (l : List CanonicalRecord) :
    validRecords (List.insertionSort recLE l) = List.insertionSort vrLE (validRecords l) := by
  induction l with
  | nil => rfl
  | cons x l ih =>
    have hs : (List.insertionSort recLE l).Sorted recLE := List.sorted_insertionSort recLE l
    simp only [List.insertionSort]
    cases hx : toValid x with
    | none =>
      have hR : validRecords (x :: l) = validRecords l := by
        simp [validRecords, List.filterMap_cons, hx]
      rw [validRecords_orderedInsert_none x hx _, ih, hR]
    | some v =>
      have hR : validRecords (x :: l) = v :: validRecords l := by
        simp [validRecords, List.filterMap_cons, hx]
      rw [validRecords_orderedInsert_some x v hx _ hs, ih, hR]
      rfl

/-- C8: on a recognized file, a timestamp value that is non-numeric text
is coerced to NaN by normalization rather than raising, and the track
builder then drops that record, so the remaining records are converted
exactly as they would have been without it. -/
theorem C8_nonnumeric_timestamp_dropped (l1 l2 : List CanonicalRecord) (r : CanonicalRecord)
    (hr : r.timestamp = none) :
    (∀ s : String, toNumericCell (Cell.str s) = Cell.na) ∧
    processRecords (l1 ++ r :: l2) = processRecords (l1 ++ l2) := by
  refine ⟨fun _ => rfl, ?_⟩
  have hdrop : validRecords (l1 ++ r :: l2) = validRecords (l1 ++ l2) := by
    simp only [validRecords, List.filterMap_append, List.filterMap_cons,
      toValid_none_of_timestamp_none hr]
  have hsv : sortedValid (l1 ++ r :: l2) = sortedValid (l1 ++ l2) := by
    unfold sortedValid
    rw [validRecords_insertionSort, validRecords_insertionSort, hdrop]
  unfold processRecords
  rw [hsv]

/-- C9: when the valid records carry pairwise distinct timestamps, the
spec's order of preprocessing steps (drop invalid records, then sort by
instant) and the code's order (sort by instant, then drop invalid
records) yield the same record sequence, and hence the same Track. -/
theorem C9_filter_sort_commute (l : List CanonicalRecord)
    (h : (validRecords l).Pairwise (fun a b => a.time ≠ b.time)) :
    sortedValid l = specOrderValid l ∧ processRecords l = specProcessRecords l := by
  have key : sortedValid l = specOrderValid l := validRecords_insertionSort l
  refine ⟨key, ?_⟩
  unfold processRecords specProcessRecords
  rw [key]


/-! ### Structure of the emitted point sequence -/

theorem interpPoints_cons (curr next : ValidRecord) (m : ℕ) :
    interpPoints curr next (m + 1)
      = interpPoint curr next (m + 1) 0
          :: (List.range m).map (fun k => interpPoint curr next (m + 1) (k + 1)) := by
  unfold interpPoints
  rw [List.range_succ_eq_map]
  simp [Function.comp]

theorem interpPoints_split (curr next : ValidRecord) (m : ℕ) :
    interpPoints curr next (m + 1)
      = (List.range m).map (interpPoint curr next (m + 1))
          ++ [interpPoint curr next (m + 1) m] := by
  unfold interpPoints
  rw [List.range_succ, List.map_append]
  rfl

theorem interpPoints_head (curr next : ValidRecord) (m : ℕ) :
    (interpPoints curr next (m + 1)).head? = some (interpPoint curr next (m + 1) 0) := by
  rw [interpPoints_cons]
  rfl

theorem mem_interpPoints {p : TrackPoint} {curr next : ValidRecord} {steps : ℕ}
    (hp : p ∈ interpPoints curr next steps) :
    ∃ k, k < steps ∧ p = interpPoint curr next steps k := by
  unfold interpPoints at hp
  obtain ⟨k, hk, hkp⟩ := List.mem_map.mp hp
  exact ⟨k, List.mem_range.mp hk, hkp.symm⟩

theorem chain'_map_range {α : Type} (R : α → α → Prop) (f : ℕ → α)
    (h : ∀ k, R (f k) (f (k + 1))) :
    ∀ n, List.Chain' R ((List.range n).map f) := by
  intro n
  induction n with
  | zero => simp
  | succ m ih =>
    rw [List.range_succ, List.map_append]
    apply List.chain'_append.mpr
    refine ⟨ih, by simp, ?_⟩
    intro x hx y hy
    simp only [List.map_cons, List.map_nil, List.head?_cons, Option.mem_def,
      Option.some.injEq] at hy
    subst hy
    cases m with
    | zero => simp at hx
    | succ j =>
      rw [List.range_succ, List.map_append] at hx
      simp only [List.map_cons, List.map_nil] at hx
      rw [List.getLast?_concat] at hx
      simp only [Option.mem_def, Option.some.injEq] at hx
      subst hx
      exact h j

theorem chain'_interpPoints {R : TrackPoint → TrackPoint → Prop} (curr next : ValidRecord)
    (steps : ℕ)
    (h : ∀ k, R (interpPoint curr next steps k) (interpPoint curr next steps (k + 1))) :
    List.Chain' R (interpPoints curr next steps) :=
  chain'_map_range R _ h steps

theorem buildAux_fst_flatten (rest : List ValidRecord) :
    ∀ curr closed seg count,
      ((buildAux curr rest closed seg count).1).flatten
        = closed.flatten ++ seg ++ emitted curr rest := by
  induction rest with
  | nil =>
    intro curr closed seg count
    simp [buildAux, emitted]
  | cons next rest' ih =>
    intro curr closed seg count
    by_cases h1 : MAX_GAP_SECONDS < next.time - curr.time
    · rw [buildAux_gap curr next rest' closed seg count h1,
        ih next (closed ++ [seg ++ [pointOf curr]]) [] count]
      have hE : emitted curr (next :: rest') = pointOf curr :: emitted next rest' := by
        unfold emitted
        rw [buildAux_gap curr next rest' [] [] 0 h1, ih next ([] ++ [[] ++ [pointOf curr]]) [] 0]
        simp [emitted]
      rw [hE]
      simp
    · by_cases h2 : next.time - curr.time ≤ INTERPOLATION_STEP
      · rw [buildAux_small curr next rest' closed seg count h1 h2,
          ih next closed (seg ++ [pointOf curr]) (count + 1)]
        have hE : emitted curr (next :: rest') = pointOf curr :: emitted next rest' := by
          unfold emitted
          rw [buildAux_small curr next rest' [] [] 0 h1 h2, ih next [] ([] ++ [pointOf curr]) 1]
          simp [emitted]
        rw [hE]
        simp
      · rw [buildAux_steps curr next rest' closed seg count h1 h2,
          ih next closed
            (seg ++ interpPoints curr next (⌊(next.time - curr.time) / INTERPOLATION_STEP⌋).toNat)
            (count + (⌊(next.time - curr.time) / INTERPOLATION_STEP⌋).toNat)]
        have hE : emitted curr (next :: rest')
            = interpPoints curr next (⌊(next.time - curr.time) / INTERPOLATION_STEP⌋).toNat
                ++ emitted next rest' := by
          unfold emitted
          rw [buildAux_steps curr next rest' [] [] 0 h1 h2,
            ih next []
              ([] ++ interpPoints curr next (⌊(next.time - curr.time) / INTERPOLATION_STEP⌋).toNat)
              (0 + (⌊(next.time - curr.time) / INTERPOLATION_STEP⌋).toNat)]
          simp [emitted]
        rw [hE]
        simp

theorem emitted_nil (curr : ValidRecord) : emitted curr [] = [pointOf curr] := rfl

theorem emitted_gap (curr next : ValidRecord) (rest : List ValidRecord)
    (h1 : MAX_GAP_SECONDS < next.time - curr.time) :
    emitted curr (next :: rest) = pointOf curr :: emitted next rest := by
  unfold emitted
  rw [buildAux_gap curr next rest [] [] 0 h1, buildAux_fst_flatten rest next _ [] 0]
  simp [emitted]

theorem emitted_small (curr next : ValidRecord) (rest : List ValidRecord)
    (h1 : ¬ MAX_GAP_SECONDS < next.time - curr.time)
    (h2 : next.time - curr.time ≤ INTERPOLATION_STEP) :
    emitted curr (next :: rest) = pointOf curr :: emitted next rest := by
  unfold emitted
  rw [buildAux_small curr next rest [] [] 0 h1 h2, buildAux_fst_flatten rest next [] _ 1]
  simp [emitted]

theorem emitted_steps (curr next : ValidRecord) (rest : List ValidRecord)
    (h1 : ¬ MAX_GAP_SECONDS < next.time - curr.time)
    (h2 : ¬ next.time - curr.time ≤ INTERPOLATION_STEP) :
    emitted curr (next :: rest)
      = interpPoints curr next (⌊(next.time - curr.time) / INTERPOLATION_STEP⌋).toNat
          ++ emitted next rest := by
  unfold emitted
  rw [buildAux_steps curr next rest [] [] 0 h1 h2, buildAux_fst_flatten rest next [] _ _]
  simp [emitted]

theorem emitted_head_time (rest : List ValidRecord) (curr : ValidRecord) :
    ∀ y ∈ (emitted curr rest).head?, y.time = curr.time := by
  cases rest with
  | nil =>
    intro y hy
    rw [emitted_nil] at hy
    simp only [List.head?_cons, Option.mem_def, Option.some.injEq] at hy
    rw [← hy]
    rfl
  | cons next rest' =>
    intro y hy
    by_cases h1 : MAX_GAP_SECONDS < next.time - curr.time
    · rw [emitted_gap curr next rest' h1] at hy
      simp only [List.head?_cons, Option.mem_def, Option.some.injEq] at hy
      rw [← hy]
      rfl
    · by_cases h2 : next.time - curr.time ≤ INTERPOLATION_STEP
      · rw [emitted_small curr next rest' h1 h2] at hy
        simp only [List.head?_cons, Option.mem_def, Option.some.injEq] at hy
        rw [← hy]
        rfl
      · rw [emitted_steps curr next rest' h1 h2] at hy
        obtain ⟨m, hm⟩ :=
          Nat.exists_eq_succ_of_ne_zero (Nat.pos_iff_ne_zero.mp (steps_pos (not_le.mp h2)))
        rw [hm, interpPoints_cons, List.cons_append] at hy
        simp only [List.head?_cons, Option.mem_def, Option.some.injEq] at hy
        rw [← hy]
        simp [interpPoint]

theorem emitted_chain_time (rest : List ValidRecord) :
    ∀ curr, List.Chain' vrLE (curr :: rest) →
      List.Chain' (fun p q : TrackPoint => p.time ≤ q.time) (emitted curr rest) := by
  induction rest with
  | nil =>
    intro curr _
    rw [emitted_nil]
    simp
  | cons next rest' ih =>
    intro curr hch
    obtain ⟨hcn, htail⟩ := List.chain'_cons.mp hch
    have hrec := ih next htail
    by_cases h1 : MAX_GAP_SECONDS < next.time - curr.time
    · rw [emitted_gap curr next rest' h1]
      apply List.chain'_cons'.mpr
      refine ⟨?_, hrec⟩
      intro y hy
      have hyt := emitted_head_time rest' next y hy
      show curr.time ≤ y.time
      rw [hyt]
      exact hcn
    · by_cases h2 : next.time - curr.time ≤ INTERPOLATION_STEP
      · rw [emitted_small curr next rest' h1 h2]
        apply List.chain'_cons'.mpr
        refine ⟨?_, hrec⟩
        intro y hy
        have hyt := emitted_head_time rest' next y hy
        show curr.time ≤ y.time
        rw [hyt]
        exact hcn
      · rw [emitted_steps curr next rest' h1 h2]
        have h2' := not_le.mp h2
        apply List.chain'_append.mpr
        refine ⟨?_, hrec, ?_⟩
        · apply chain'_interpPoints
          intro k
          show (interpPoint curr next _ k).time ≤ (interpPoint curr next _ (k + 1)).time
          simp only [interpPoint]
          push_cast
          linarith
        · intro x hx y hy
          have hyt := emitted_head_time rest' next y hy
          obtain ⟨k, hk, hxk⟩ := mem_interpPoints (List.mem_of_getLast?_eq_some hx)
          have hkq : (k : ℚ) + 1
              ≤ (((⌊(next.time - curr.time) / INTERPOLATION_STEP⌋).toNat : ℕ) : ℚ) := by
            exact_mod_cast hk
          have hle := steps_le h2'
          show x.time ≤ y.time
          rw [hyt, hxk]
          show curr.time + (k : ℚ) ≤ next.time
          linarith

theorem sortedValid_pairwise (l : List CanonicalRecord) : (sortedValid l).Pairwise vrLE := by
  have key : sortedValid l = specOrderValid l := validRecords_insertionSort l
  rw [key]
  exact List.sorted_insertionSort vrLE (validRecords l)

theorem processRecords_some {l : List CanonicalRecord} {segs : List (List TrackPoint)} {n : ℕ}
    {r : ValidRecord} {rest : List ValidRecord}
    (h : processRecords l = some (segs, n)) (hsv : sortedValid l = r :: rest) :
    buildAux r rest [] [] 0 = (segs, n) := by
  have heq : processRecords l = buildTrack (sortedValid l) := rfl
  rw [heq, hsv] at h
  simpa [buildTrack] using h

theorem processRecords_none {l : List CanonicalRecord} (hsv : sortedValid l = []) :
    processRecords l = none := by
  have heq : processRecords l = buildTrack (sortedValid l) := rfl
  rw [heq, hsv]
  rfl

/-- C3: for every record sequence accepted by the track builder, the
emitted points, read in emission order across all segments, carry
monotonically non-decreasing timestamps (within each segment and from
each segment to the next). -/
theorem C3_time_monotone (l : List CanonicalRecord) (segs : List (List TrackPoint)) (n : ℕ)
    (h : processRecords l = some (segs, n)) :
    List.Chain' (fun p q : TrackPoint => p.time ≤ q.time) segs.flatten := by
  cases hsv : sortedValid l with
  | nil =>
    rw [processRecords_none hsv] at h
    cases h
  | cons r rest =>
    have h' := processRecords_some h hsv
    have hchain : List.Chain' vrLE (r :: rest) := by
      have hp := sortedValid_pairwise l
      rw [hsv] at hp
      exact hp.chain'
    have hflat : segs.flatten = emitted r rest := by
      unfold emitted
      rw [h']
    rw [hflat]
    exact emitted_chain_time rest r hchain

/-! ### Per-segment gap bound and NaN elevation -/

theorem chain_seg_concat (seg : List TrackPoint) (curr : ValidRecord)
    (hseg : List.Chain' (fun p q : TrackPoint => q.time - p.time ≤ MAX_GAP_SECONDS) seg)
    (hlast : ∀ p ∈ seg.getLast?, curr.time - p.time ≤ MAX_GAP_SECONDS) :
    List.Chain' (fun p q : TrackPoint => q.time - p.time ≤ MAX_GAP_SECONDS)
      (seg ++ [pointOf curr]) := by
  apply List.chain'_append.mpr
  refine ⟨hseg, by simp, ?_⟩
  intro x hx y hy
  simp only [List.head?_cons, Option.mem_def, Option.some.injEq] at hy
  subst hy
  exact hlast x hx

theorem buildAux_segments_chain (rest : List ValidRecord) :
    ∀ curr closed seg count,
      (∀ s ∈ closed, List.Chain' (fun p q : TrackPoint => q.time - p.time ≤ MAX_GAP_SECONDS) s) →
      List.Chain' (fun p q : TrackPoint => q.time - p.time ≤ MAX_GAP_SECONDS) seg →
      (∀ p ∈ seg.getLast?, curr.time - p.time ≤ MAX_GAP_SECONDS) →
      ∀ s ∈ (buildAux curr rest closed seg count).1,
        List.Chain' (fun p q : TrackPoint => q.time - p.time ≤ MAX_GAP_SECONDS) s := by
  induction rest with
  | nil =>
    intro curr closed seg count hclosed hseg hlast s hs
    rw [buildAux_last] at hs
    rcases List.mem_append.mp hs with hs | hs
    · exact hclosed s hs
    · simp only [List.mem_singleton] at hs
      subst hs
      exact chain_seg_concat seg curr hseg hlast
  | cons next rest' ih =>
    intro curr closed seg count hclosed hseg hlast
    by_cases h1 : MAX_GAP_SECONDS < next.time - curr.time
    · rw [buildAux_gap curr next rest' closed seg count h1]
      apply ih next (closed ++ [seg ++ [pointOf curr]]) [] count ?_ (by simp) (by simp)
      intro s hs
      rcases List.mem_append.mp hs with hs | hs
      · exact hclosed s hs
      · simp only [List.mem_singleton] at hs
        subst hs
        exact chain_seg_concat seg curr hseg hlast
    · by_cases h2 : next.time - curr.time ≤ INTERPOLATION_STEP
      · rw [buildAux_small curr next rest' closed seg count h1 h2]
        apply ih next closed (seg ++ [pointOf curr]) (count + 1) hclosed
          (chain_seg_concat seg curr hseg hlast) ?_
        intro p hp
        rw [List.getLast?_concat] at hp
        simp only [Option.mem_def, Option.some.injEq] at hp
        subst hp
        show next.time - (pointOf curr).time ≤ MAX_GAP_SECONDS
        have hstep_le : INTERPOLATION_STEP ≤ MAX_GAP_SECONDS := by
          norm_num [INTERPOLATION_STEP, MAX_GAP_SECONDS]
        exact le_trans h2 hstep_le
      · rw [buildAux_steps curr next rest' closed seg count h1 h2]
        have h2' := not_le.mp h2
        have hg := not_lt.mp h1
        obtain ⟨m, hm⟩ :=
          Nat.exists_eq_succ_of_ne_zero (Nat.pos_iff_ne_zero.mp (steps_pos h2'))
        apply ih next closed
          (seg ++ interpPoints curr next (⌊(next.time - curr.time) / INTERPOLATION_STEP⌋).toNat)
          (count + (⌊(next.time - curr.time) / INTERPOLATION_STEP⌋).toNat) hclosed ?_ ?_
        · apply List.chain'_append.mpr
          refine ⟨hseg, ?_, ?_⟩
          · apply chain'_interpPoints
            intro k
            show (interpPoint curr next _ (k + 1)).time - (interpPoint curr next _ k).time
              ≤ MAX_GAP_SECONDS
            simp only [interpPoint, MAX_GAP_SECONDS]
            push_cast
            linarith
          · intro x hx y hy
            rw [hm, interpPoints_head] at hy
            simp only [Option.mem_def, Option.some.injEq] at hy
            subst hy
            show (interpPoint curr next (m + 1) 0).time - x.time ≤ MAX_GAP_SECONDS
            have h0 : (interpPoint curr next (m + 1) 0).time = curr.time := by
              simp [interpPoint]
            rw [h0]
            exact hlast x hx
        · intro p hp
          rw [hm] at hp
          have hsplit : seg ++ interpPoints curr next (m + 1)
              = (seg ++ (List.range m).map (interpPoint curr next (m + 1)))
                  ++ [interpPoint curr next (m + 1) m] := by
            rw [interpPoints_split, ← List.append_assoc]
          rw [hsplit, List.getLast?_concat] at hp
          simp only [Option.mem_def, Option.some.injEq] at hp
          subst hp
          show next.time - (interpPoint curr next (m + 1) m).time ≤ MAX_GAP_SECONDS
          have ht : (interpPoint curr next (m + 1) m).time = curr.time + (m : ℚ) := rfl
          rw [ht]
          have hle := steps_le h2'
          rw [hm] at hle
          push_cast at hle
          have hm0 : (0 : ℚ) ≤ (m : ℚ) := Nat.cast_nonneg m
          linarith

/-- C2: a gap larger than MAX_GAP_SECONDS makes the loop emit the earlier
record into the current segment and then open a fresh segment, with no
interpolation across the boundary; consequently within every output
segment no two consecutive points are more than MAX_GAP_SECONDS apart. -/
theorem C2_max_gap_split (l : List CanonicalRecord) (segs : List (List TrackPoint)) (n : ℕ)
    (h : processRecords l = some (segs, n)) :
    (∀ (curr next : ValidRecord) (rest : List ValidRecord)
        (closed : List (List TrackPoint)) (seg : List TrackPoint) (count : ℕ),
        MAX_GAP_SECONDS < next.time - curr.time →
        buildAux curr (next :: rest) closed seg count
          = buildAux next rest (closed ++ [seg ++ [pointOf curr]]) [] count) ∧
    ∀ s ∈ segs, List.Chain' (fun p q : TrackPoint => q.time - p.time ≤ MAX_GAP_SECONDS) s := by
  refine ⟨fun curr next rest closed seg count hgap =>
    buildAux_gap curr next rest closed seg count hgap, ?_⟩
  cases hsv : sortedValid l with
  | nil =>
    rw [processRecords_none hsv] at h
    cases h
  | cons r rest =>
    have h' := processRecords_some h hsv
    intro s hs
    have hall := buildAux_segments_chain rest r [] [] 0 (by simp) (by simp) (by simp)
    rw [h'] at hall
    exact hall s hs

theorem emitted_ele_none (rest : List ValidRecord) :
    ∀ curr, (curr.ele = none ∨ ∃ r ∈ rest, r.ele = none) →
      ∃ p ∈ emitted curr rest, p.ele = none := by
  induction rest with
  | nil =>
    intro curr hc
    rcases hc with hc | ⟨r, hr, _⟩
    · exact ⟨pointOf curr, by simp [emitted_nil], hc⟩
    · exact absurd hr (List.not_mem_nil r)
  | cons next rest' ih =>
    intro curr hc
    rcases hc with hc | ⟨r, hr, hre⟩
    · by_cases h1 : MAX_GAP_SECONDS < next.time - curr.time
      · rw [emitted_gap curr next rest' h1]
        exact ⟨pointOf curr, List.mem_cons_self _ _, hc⟩
      · by_cases h2 : next.time - curr.time ≤ INTERPOLATION_STEP
        · rw [emitted_small curr next rest' h1 h2]
          exact ⟨pointOf curr, List.mem_cons_self _ _, hc⟩
        · rw [emitted_steps curr next rest' h1 h2]
          obtain ⟨m, hm⟩ :=
            Nat.exists_eq_succ_of_ne_zero (Nat.pos_iff_ne_zero.mp (steps_pos (not_le.mp h2)))
          rw [hm, interpPoints_cons, List.cons_append]
          refine ⟨interpPoint curr next (m + 1) 0, List.mem_cons_self _ _, ?_⟩
          show eleInterp curr.ele next.ele _ = none
          rw [hc]
          cases next.ele <;> rfl
    · have hnext : next.ele = none ∨ ∃ q ∈ rest', q.ele = none := by
        rcases List.mem_cons.mp hr with hrn | hr'
        · exact Or.inl (hrn ▸ hre)
        · exact Or.inr ⟨r, hr', hre⟩
      obtain ⟨p, hp, hpe⟩ := ih next hnext
      by_cases h1 : MAX_GAP_SECONDS < next.time - curr.time
      · rw [emitted_gap curr next rest' h1]
        exact ⟨p, List.mem_cons_of_mem _ hp, hpe⟩
      · by_cases h2 : next.time - curr.time ≤ INTERPOLATION_STEP
        · rw [emitted_small curr next rest' h1 h2]
          exact ⟨p, List.mem_cons_of_mem _ hp, hpe⟩
        · rw [emitted_steps curr next rest' h1 h2]
          exact ⟨p, List.mem_append_right _ hp, hpe⟩

/-- C10: on a file the program can convert at all (no text cell makes it
raise), a record whose elevation cell is a float NaN while its
timestamp, lat and lon cells hold numbers is not filtered out — its
point is emitted with the ele element rendered as the text "nan" —
whereas the elevation default 0 applies exactly when the whole file
lacks an elevation column. -/
theorem C10_nan_elevation (df : DataFrame) (row : List Cell) (t la lo : ℚ)
    (hrow : row ∈ df.rows)
    (hcol : "ele" ∈ df.columns)
    (hg1 : df.rows.any (fun r => cellIsText (cellAt r (colIdx df.columns "timestamp"))) = false)
    (hg2 : df.rows.any (fun r => rowKept df.columns r && rowRaises df.columns r) = false)
    (ht : cellAt row (colIdx df.columns "timestamp") = Cell.num t)
    (hla : cellAt row (colIdx df.columns "lat") = Cell.num la)
    (hlo : cellAt row (colIdx df.columns "lon") = Cell.num lo)
    (hele : cellAt row (colIdx df.columns "ele") = Cell.na) :
    (∃ segs n, process_and_generate_gpx df = some (segs, n) ∧
      ∃ p ∈ segs.flatten, p.ele = none ∧ eleString p.ele = "nan") ∧
    (∀ df2 : DataFrame, "ele" ∉ df2.columns → ∀ r ∈ toCanonical df2, r.ele = some 0) := by
  have hpro : process_and_generate_gpx df = processRecords (toCanonical df) := by
    unfold process_and_generate_gpx
    rw [hg1, hg2]
    simp
  have hex : extractRow df.columns row
      = { timestamp := some t, lat := some la, lon := some lo, ele := none } := by
    obtain ⟨j, hj⟩ : ∃ j, colIdx df.columns "ele" = some j := by
      cases hidx : colIdx df.columns "ele" with
      | none =>
        exfalso
        have hfalse := List.findIdx?_eq_none_iff.mp hidx "ele" hcol
        simp at hfalse
      | some j => exact ⟨j, rfl⟩
    have hj' : row.getD j .na = Cell.na := by
      have hswap : cellAt row (colIdx df.columns "ele") = row.getD j .na := by
        rw [hj]
        rfl
      rw [← hswap, hele]
    simp only [extractRow, ht, hla, hlo, hj, hj', cellToOpt]
  constructor
  · have hrv : toValid (extractRow df.columns row)
        = some ⟨t, la, lo, none⟩ := by
      rw [hex]
      rfl
    have hmem0 : extractRow df.columns row ∈ toCanonical df :=
      List.mem_map_of_mem _ hrow
    have hmem1 : (⟨t, la, lo, none⟩ : ValidRecord) ∈ validRecords (toCanonical df) :=
      List.mem_filterMap.mpr ⟨_, hmem0, hrv⟩
    have hmem2 : (⟨t, la, lo, none⟩ : ValidRecord) ∈ sortedValid (toCanonical df) := by
      unfold sortedValid
      rw [validRecords_insertionSort]
      exact (List.mem_insertionSort vrLE).mpr hmem1
    cases hsv : sortedValid (toCanonical df) with
    | nil =>
      rw [hsv] at hmem2
      cases hmem2
    | cons r rest =>
      rw [hsv] at hmem2
      refine ⟨(buildAux r rest [] [] 0).1, (buildAux r rest [] [] 0).2, ?_, ?_⟩
      · rw [hpro]
        have heq : processRecords (toCanonical df) = buildTrack (sortedValid (toCanonical df)) :=
          rfl
        rw [heq, hsv]
        rfl
      · have hdisj : r.ele = none ∨ ∃ q ∈ rest, q.ele = none := by
          rcases List.mem_cons.mp hmem2 with hvr | hvr
          · left
            rw [← hvr]
          · right
            exact ⟨_, hvr, rfl⟩
        obtain ⟨p, hp, hpe⟩ := emitted_ele_none rest r hdisj
        refine ⟨p, hp, hpe, ?_⟩
        rw [hpe]
        rfl
  · intro df2 hno r hr
    have hidx : colIdx df2.columns "ele" = none := by
      apply List.findIdx?_eq_none_iff.mpr
      intro x hx
      rw [beq_eq_false_iff_ne]
      rintro rfl
      exact hno hx
    obtain ⟨row2, hrow2, hre⟩ := List.mem_map.mp hr
    rw [← hre]
    simp [extractRow, hidx]

/-! ### Concrete evaluations and witnesses -/

theorem recLE_wl2 :
    recLE ⟨some 0, some 0, some 0, some 0⟩ ⟨some 400, some 1, some 1, some 0⟩ := by
  show timeKey _ ≤ timeKey _
  decide

theorem sortedValid_wl2 : sortedValid wl2 = [⟨0, 0, 0, some 0⟩, ⟨400, 1, 1, some 0⟩] := by
  unfold sortedValid wl2
  simp only [List.insertionSort, List.orderedInsert]
  rw [if_pos recLE_wl2]
  rfl

theorem processRecords_wl2 :
    processRecords wl2 = some ([[⟨0, 0, some 0, 0⟩], [⟨1, 1, some 0, 400⟩]], 0) := by
  have heq : processRecords wl2 = buildTrack (sortedValid wl2) := rfl
  rw [heq, sortedValid_wl2]
  show some (buildAux ⟨0, 0, 0, some 0⟩ [⟨400, 1, 1, some 0⟩] [] [] 0) = _
  rw [buildAux_gap ⟨0, 0, 0, some 0⟩ ⟨400, 1, 1, some 0⟩ [] [] [] 0
    (by norm_num [MAX_GAP_SECONDS]), buildAux_last]
  rfl

/-- Witness for C1 at a concrete pair 10 seconds apart. -/
theorem C1_interpolated_batch_witness :
    ∃ pts : List TrackPoint,
      buildAux ⟨0, 0, 0, some 0⟩ [⟨10, 1, 1, some 100⟩] [] [] 0
        = buildAux ⟨10, 1, 1, some 100⟩ [] [] ([] ++ pts) (0 + pts.length) ∧
      pts.length = (⌊((10 : ℚ) - 0) / INTERPOLATION_STEP⌋).toNat ∧
      ∀ k, (hk : k < pts.length) → pts.get ⟨k, hk⟩ =
        { lat := (0 : ℚ) + ((1 : ℚ) - 0) * ((k : ℚ) / (pts.length : ℚ))
          lon := (0 : ℚ) + ((1 : ℚ) - 0) * ((k : ℚ) / (pts.length : ℚ))
          ele := eleInterp (some 0) (some 100) ((k : ℚ) / (pts.length : ℚ))
          time := (0 : ℚ) + (k : ℚ) } :=
  C1_interpolated_batch ⟨0, 0, 0, some 0⟩ ⟨10, 1, 1, some 100⟩ [] [] [] 0
    (by norm_num [INTERPOLATION_STEP]) (by norm_num [MAX_GAP_SECONDS])

/-- Witness for C2 at a concrete pair 400 seconds apart. -/
theorem C2_max_gap_split_witness :
    (∀ (curr next : ValidRecord) (rest : List ValidRecord)
        (closed : List (List TrackPoint)) (seg : List TrackPoint) (count : ℕ),
        MAX_GAP_SECONDS < next.time - curr.time →
        buildAux curr (next :: rest) closed seg count
          = buildAux next rest (closed ++ [seg ++ [pointOf curr]]) [] count) ∧
    ∀ s ∈ ([[⟨0, 0, some 0, 0⟩], [⟨1, 1, some 0, 400⟩]] : List (List TrackPoint)),
      List.Chain' (fun p q : TrackPoint => q.time - p.time ≤ MAX_GAP_SECONDS) s :=
  C2_max_gap_split wl2 [[⟨0, 0, some 0, 0⟩], [⟨1, 1, some 0, 400⟩]] 0 processRecords_wl2

/-- Witness for C3 at a concrete pair 400 seconds apart. -/
theorem C3_time_monotone_witness :
    List.Chain' (fun p q : TrackPoint => p.time ≤ q.time)
      ([[⟨0, 0, some 0, 0⟩], [⟨1, 1, some 0, 400⟩]] : List (List TrackPoint)).flatten :=
  C3_time_monotone wl2 [[⟨0, 0, some 0, 0⟩], [⟨1, 1, some 0, 400⟩]] 0 processRecords_wl2

/-- Witness for C6 at a concrete pair 400 seconds apart. -/
theorem C6_count_accounting_witness :
    (([[⟨0, 0, some 0, 0⟩], [⟨1, 1, some 0, 400⟩]] : List (List TrackPoint)).map
        List.length).sum
      = 0 + ([[⟨0, 0, some 0, 0⟩], [⟨1, 1, some 0, 400⟩]] : List (List TrackPoint)).length :=
  C6_count_accounting wl2 [[⟨0, 0, some 0, 0⟩], [⟨1, 1, some 0, 400⟩]] 0 processRecords_wl2

/-- Witness for C7 at a concrete frame with no recognizable columns. -/
theorem C7_unrecognized_skip_witness :
    standardize_dataframe dfu = none ∧
    runBatch ([] ++ dfu :: []) = runBatch [] ++ none :: runBatch [] :=
  C7_unrecognized_skip [] [] dfu (by simp [dfu]) (by simp [dfu])

/-- Witness for C8 at a concrete record with a NaN timestamp. -/
theorem C8_nonnumeric_timestamp_dropped_witness :
    (∀ s : String, toNumericCell (Cell.str s) = Cell.na) ∧
    processRecords ([] ++ (⟨none, some 1, some 1, some 0⟩ : CanonicalRecord)
        :: [⟨some 0, some 0, some 0, some 0⟩])
      = processRecords ([] ++ [⟨some 0, some 0, some 0, some 0⟩]) :=
  C8_nonnumeric_timestamp_dropped [] [⟨some 0, some 0, some 0, some 0⟩]
    ⟨none, some 1, some 1, some 0⟩ rfl

/-- Witness for C9 at a concrete out-of-order input with distinct
timestamps. -/
theorem C9_filter_sort_commute_witness :
    sortedValid wl9 = specOrderValid wl9 ∧ processRecords wl9 = specProcessRecords wl9 :=
  C9_filter_sort_commute wl9 (by decide)

/-- Witness for C10 at a concrete frame whose only row has NaN elevation. -/
theorem C10_nan_elevation_witness :
    (∃ segs n, process_and_generate_gpx df10 = some (segs, n) ∧
      ∃ p ∈ segs.flatten, p.ele = none ∧ eleString p.ele = "nan") ∧
    (∀ df2 : DataFrame, "ele" ∉ df2.columns → ∀ r ∈ toCanonical df2, r.ele = some 0) :=
  C10_nan_elevation df10 [.num 10, .num 1, .num 2, .na] 10 1 2
    (List.mem_cons_self _ _) (by decide) rfl rfl rfl rfl rfl rfl

end Foot2Fog
